import Mathlib

/-!
# Referral ledger engine of `bot.py` — shallow embedding

This file embeds the ledger core of the Telegram referral bot:
the SQLite-backed store of users / deposits / referral earnings /
withdrawals, the balance calculator, the deposit-crediting admin
command, the withdrawal request handler and the registration handler.

Monetary amounts are stored by the bot as 2-decimal text produced by
`decimal_str` (Python `Decimal.quantize(0.01, ROUND_DOWN)`); here the
rational value denoted by that text is stored directly, so `trunc2`
models `decimal_str` / `quantize(0.01, ROUND_DOWN)`.  Timestamps are
the ISO strings the bot writes with `datetime.utcnow().isoformat()`.
The SQLite `SUM(CAST(amount AS REAL))` aggregation the source uses is
modelled faithfully (IEEE binary64 round-to-nearest-even on rationals,
`rnd53`/`fsum`): `sum_ref_earnings_real`, `pending_withdrawable` and
`admin_stats` are built on it, as in the code.  `sum_ref_earnings` is
the exact-decimal reading of the same aggregate, kept as the spec-side
reference the pipeline is measured against.
-/

namespace RefBot

/-- Truncation of a rational toward zero to two decimal places:
Python `Decimal(v).quantize(Decimal("0.01"), rounding=ROUND_DOWN)`,
i.e. the bot's `decimal_str` without the final string rendering. -/
def trunc2 (q : ℚ) : ℚ :=
  if 0 ≤ q then (⌊q * 100⌋ : ℚ) / 100 else -((⌊-q * 100⌋ : ℚ) / 100)

/-- Python `str.startswith`, on the underlying character lists. -/
def strStartsWith (s pre : String) : Bool :=
  pre.data.isPrefixOf s.data

/-- Row of the `users` table (sans the autoincrement key). -/
structure User where
  telegram_id : ℤ
  username : Option String
  first_name : Option String
  referred_by : Option ℤ
  joined_at : String
deriving DecidableEq, Repr

/-- Row of the `deposits` table. -/
structure Deposit where
  user_telegram_id : ℤ
  amount : ℚ
  currency : String
  created_at : String
deriving DecidableEq, Repr

/-- Row of the `ref_earnings` table. -/
structure RefEarning where
  referrer_telegram_id : ℤ
  from_user_telegram_id : ℤ
  amount : ℚ
  created_at : String
  note : String
deriving DecidableEq, Repr

/-- Withdrawal status strings: the bot only ever writes `'pending'`,
but `pending_withdrawable` queries for `'paid'`, and the spec's state
machine also names `'rejected'`. -/
inductive WStatus where
  | pending
  | paid
  | rejected
deriving DecidableEq, Repr

/-- Row of the `withdrawals` table. -/
structure Withdrawal where
  user_telegram_id : ℤ
  amount : ℚ
  status : WStatus
  created_at : String
deriving DecidableEq, Repr

/-- The SQLite database state after `init_db`. -/
structure LedgerState where
  users : List User
  deposits : List Deposit
  ref_earnings : List RefEarning
  withdrawals : List Withdrawal
deriving DecidableEq, Repr

/-- The freshly initialised database (`init_db` creates empty tables). -/
def emptyState : LedgerState := ⟨[], [], [], []⟩

/-- `get_user`: `SELECT ... FROM users WHERE telegram_id = ?` (first row). -/
def get_user (s : LedgerState) (tg_id : ℤ) : Option User :=
  s.users.find? (fun u => decide (u.telegram_id = tg_id))

/-- `create_user_if_not_exists`: inserts a fresh row unless a row with
this `telegram_id` already exists. -/
def create_user_if_not_exists (s : LedgerState) (tg_id : ℤ)
    (username first_name : Option String) (referred_by : Option ℤ)
    (now : String) : LedgerState :=
  match get_user s tg_id with
  | some _ => s
  | none => { s with users := s.users ++ [⟨tg_id, username, first_name, referred_by, now⟩] }

/-- The exact-decimal reading of the earnings aggregate: the sum of the
stored `ref_earnings.amount` values where `referrer_telegram_id =
tg_id`, as the spec prescribes for `totalEarned`.  The code's query
does NOT compute this: it routes the stored text through
`SUM(CAST(... AS REAL))`, binary64 floating point — that faithful
pipeline is `sum_ref_earnings_real` below, and it is what
`pending_withdrawable` uses.  This exact reading is kept only as the
spec-side reference the pipeline is measured against. -/
def sum_ref_earnings (s : LedgerState) (tg_id : ℤ) : ℚ :=
  ((s.ref_earnings.filter (fun e => decide (e.referrer_telegram_id = tg_id))).map
    (fun e => e.amount)).sum

/-! ### The SQLite `CAST(amount AS REAL)` pipeline (binary64 model)

`sum_ref_earnings`, `pending_withdrawable` and `admin_stats` in the
source all issue `SELECT COALESCE(SUM(CAST(amount AS REAL)), 0)`: the
stored decimal text is converted to IEEE binary64 and accumulated in
binary64 arithmetic before Python wraps the result back into a
`Decimal`.  The rounding of a (normal-range) rational to 53
significant bits with round-to-nearest, ties-to-even is modelled
exactly on `ℚ`.  Python's final `Decimal(str(...))` re-reading of each
aggregate preserves zero, sign and ordering; it is modelled as the
identity on the binary64 value. -/

/-- Round to nearest integer, ties to even. -/
def rne (x : ℚ) : ℤ :=
  if x - ⌊x⌋ < 1/2 then ⌊x⌋
  else if 1/2 < x - (⌊x⌋ : ℚ) then ⌊x⌋ + 1
  else if ⌊x⌋ % 2 = 0 then ⌊x⌋ else ⌊x⌋ + 1

/-- Binary64 rounding of a positive rational in the normal range:
scale to a 53-bit significand (binary exponent via `Int.log 2`), round
to nearest with ties to even, and scale back. -/
def rnd53pos (q : ℚ) : ℚ :=
  (rne (q * 2 ^ ((52 : ℤ) - Int.log 2 q)) : ℚ) * 2 ^ (Int.log 2 q - 52)

/-- Binary64 rounding of a rational (normal range; sign handled by
symmetry, zero exactly). -/
def rnd53 (q : ℚ) : ℚ :=
  if q = 0 then 0 else if 0 < q then rnd53pos q else -rnd53pos (-q)

/-- `SUM(CAST(... AS REAL))`: each stored decimal value is converted to
the nearest binary64 and the running sum is kept in binary64. -/
def fsum (l : List ℚ) : ℚ :=
  l.foldl (fun acc a => rnd53 (acc + rnd53 a)) 0

/-- `sum_ref_earnings` as the code actually computes it, routed through
the SQLite REAL (binary64) cast and summation. -/
def sum_ref_earnings_real (s : LedgerState) (tg_id : ℤ) : ℚ :=
  fsum ((s.ref_earnings.filter (fun e => decide (e.referrer_telegram_id = tg_id))).map
    (fun e => e.amount))

/-- `sum_ref_earnings_today`: fetches this referrer's earnings and sums
(with exact Python `Decimal` arithmetic — this helper does not go
through SQL aggregation) those whose `created_at` starts with
`today_iso`.  In the bot, `today_iso` is `date.today().isoformat()`,
the date of the process-local clock. -/
def sum_ref_earnings_today (s : LedgerState) (tg_id : ℤ) (today_iso : String) : ℚ :=
  ((s.ref_earnings.filter (fun e =>
      decide (e.referrer_telegram_id = tg_id) && strStartsWith e.created_at today_iso)).map
    (fun e => e.amount)).sum

/-- `pending_withdrawable`: total earnings minus the sum of this user's
withdrawals with `status = 'paid'`, both aggregates computed — as in
the source — through the SQLite REAL (binary64) pipeline; the final
subtraction happens on the Python `Decimal` side and is exact. -/
def pending_withdrawable (s : LedgerState) (tg_id : ℤ) : ℚ :=
  sum_ref_earnings_real s tg_id -
    fsum ((s.withdrawals.filter (fun w =>
        decide (w.user_telegram_id = tg_id) && decide (w.status = WStatus.paid))).map
      (fun w => w.amount))

/-- The `/start` handler `cmd_start`, ledger effects only.  `arg` is the
already-parsed referral argument (`int(args)` succeeded ↦ `some`,
missing or unparseable ↦ `none`, as the handler's `try/except` does).
A fresh user is stored with the self-referral normalised away; an
existing user only has the display fields refreshed. -/
def cmd_start (s : LedgerState) (from_id : ℤ)
    (username first_name : Option String) (arg : Option ℤ) (now : String) : LedgerState :=
  match get_user s from_id with
  | none =>
      let referred_by := if arg = some from_id then none else arg
      create_user_if_not_exists s from_id username first_name referred_by now
  | some _ =>
      { s with users := s.users.map (fun u =>
          if u.telegram_id = from_id then
            { u with username := username, first_name := first_name }
          else u) }

/-- The `🏧 Вывести реферальные` handler `withdraw_request`, ledger
effects only: reads `pending_withdrawable`; if it is ≤ 0 nothing is
written, otherwise one `'pending'` withdrawal for `decimal_str` of that
balance is inserted. -/
def withdraw_request (s : LedgerState) (from_id : ℤ) (now : String) : LedgerState :=
  let to_withdraw := pending_withdrawable s from_id
  if to_withdraw ≤ 0 then s
  else { s with withdrawals :=
          s.withdrawals ++ [⟨from_id, trunc2 to_withdraw, WStatus.pending, now⟩] }

/-- The note text written with each earning (`f"Referral bonus
{REF_PERCENT}% from {target_id}"`; the exact rendering is presentation,
kept abstract in the row's note field). -/
def mkNote (pct : ℚ) (target_id : ℤ) : String :=
  "Referral bonus " ++ toString pct.num ++ "/" ++ toString pct.den
    ++ "% from " ++ toString target_id

/-- The `/add_deposit` admin handler `admin_add_deposit`, ledger effects
only, after argument parsing succeeded (`target_id`, `amount` parsed;
`pct` is the process-wide `REF_PERCENT`).  It auto-creates the target
user, stores the deposit as `decimal_str(amount)`, and — when the
stored `referred_by` is truthy (non-NULL *and* non-zero, by Python
truthiness) and differs from the target — stores the bonus
`(amount * pct / 100).quantize(0.01, ROUND_DOWN)` as an earning,
without any positivity check on the amount or the bonus. -/
def admin_add_deposit (s : LedgerState) (target_id : ℤ) (amount : ℚ)
    (currency : String) (pct : ℚ) (now : String) : LedgerState :=
  let s1 := create_user_if_not_exists s target_id none none none now
  let s2 := { s1 with deposits :=
      s1.deposits ++ [⟨target_id, trunc2 amount, currency, now⟩] }
  match get_user s2 target_id with
  | none => s2
  | some user =>
    match user.referred_by with
    | none => s2
    | some referrer =>
      if referrer ≠ 0 ∧ referrer ≠ target_id then
        { s2 with ref_earnings := s2.ref_earnings ++
            [⟨referrer, target_id, trunc2 (amount * pct / 100), now, mkNote pct target_id⟩] }
      else s2

/-- The `/admin` statistics: user count, count of users with a
referrer, total deposits, total earnings — the two monetary totals
aggregated, as in the source, through `SUM(CAST(amount AS REAL))`. -/
def admin_stats (s : LedgerState) : ℕ × ℕ × ℚ × ℚ :=
  (s.users.length,
   (s.users.filter (fun u => u.referred_by.isSome)).length,
   fsum (s.deposits.map (fun d => d.amount)),
   fsum (s.ref_earnings.map (fun e => e.amount)))

/-- The mutating entry points of the bot, as one step type: `/start`,
`/add_deposit`, and the withdrawal request button.  (The remaining
handlers only read the store.) -/
inductive Op where
  | start (from_id : ℤ) (username first_name : Option String)
      (arg : Option ℤ) (now : String)
  | addDeposit (target_id : ℤ) (amount : ℚ) (currency : String)
      (pct : ℚ) (now : String)
  | withdraw (from_id : ℤ) (now : String)

/-- One step of the bot: the ledger effect of a single handler run. -/
def applyOp (s : LedgerState) : Op → LedgerState
  | Op.start from_id username first_name arg now =>
      cmd_start s from_id username first_name arg now
  | Op.addDeposit target_id amount currency pct now =>
      admin_add_deposit s target_id amount currency pct now
  | Op.withdraw from_id now => withdraw_request s from_id now

/-! ## Helper lemmas -/

theorem trunc2_cents {q : ℚ} (h : ∃ n : ℤ, q = (n : ℚ) / 100) : trunc2 q = q := by
  obtain ⟨n, rfl⟩ := h
  rw [trunc2]
  have h100 : ((n : ℚ) / 100) * 100 = (n : ℚ) := by ring
  split
  · rw [h100, Int.floor_intCast]
  · rw [show -((n : ℚ) / 100) * 100 = ((-n : ℤ) : ℚ) by push_cast; ring,
      Int.floor_intCast]
    push_cast
    ring

theorem trunc2_nonpos {q : ℚ} (h : q ≤ 0) : trunc2 q ≤ 0 := by
  rw [trunc2]
  split
  · have hq : q = 0 := le_antisymm h (by assumption)
    simp [hq]
  · have h0 : (0 : ℤ) ≤ ⌊-q * 100⌋ := by
      apply Int.floor_nonneg.2
      nlinarith
    have : (0 : ℚ) ≤ (⌊-q * 100⌋ : ℚ) := by exact_mod_cast h0
    nlinarith

theorem trunc2_nonneg {q : ℚ} (h : 0 ≤ q) : 0 ≤ trunc2 q := by
  rw [trunc2, if_pos h]
  have h0 : (0 : ℤ) ≤ ⌊q * 100⌋ := Int.floor_nonneg.2 (by nlinarith)
  have h1 : (0 : ℚ) ≤ (⌊q * 100⌋ : ℚ) := by exact_mod_cast h0
  exact div_nonneg h1 (by norm_num)

/-- `create_user_if_not_exists` touches only the `users` table. -/
theorem create_user_frame (s : LedgerState) (tg_id : ℤ)
    (username first_name : Option String) (referred_by : Option ℤ) (now : String) :
    (create_user_if_not_exists s tg_id username first_name referred_by now).deposits =
      s.deposits ∧
    (create_user_if_not_exists s tg_id username first_name referred_by now).ref_earnings =
      s.ref_earnings ∧
    (create_user_if_not_exists s tg_id username first_name referred_by now).withdrawals =
      s.withdrawals := by
  rw [create_user_if_not_exists]
  cases get_user s tg_id <;> simp

/-- `admin_add_deposit` never touches the `withdrawals` table. -/
theorem admin_add_deposit_withdrawals_frame (s : LedgerState) (target_id : ℤ)
    (amount : ℚ) (currency : String) (pct : ℚ) (now : String) :
    (admin_add_deposit s target_id amount currency pct now).withdrawals =
      s.withdrawals := by
  rw [admin_add_deposit]
  have h1 := (create_user_frame s target_id none none none now).2.2
  cases hget : get_user { create_user_if_not_exists s target_id none none none now with
      deposits := (create_user_if_not_exists s target_id none none none now).deposits ++
        [⟨target_id, trunc2 amount, currency, now⟩] } target_id with
  | none => simpa using h1
  | some user =>
    cases hrb : user.referred_by with
    | none => simpa [hrb] using h1
    | some referrer =>
      by_cases hcond : referrer ≠ 0 ∧ referrer ≠ target_id <;>
        simp [hrb, hcond, h1]

/-- `cmd_start` touches only the `users` table. -/
theorem cmd_start_frame (s : LedgerState) (from_id : ℤ)
    (username first_name : Option String) (arg : Option ℤ) (now : String) :
    (cmd_start s from_id username first_name arg now).deposits = s.deposits ∧
    (cmd_start s from_id username first_name arg now).ref_earnings = s.ref_earnings ∧
    (cmd_start s from_id username first_name arg now).withdrawals = s.withdrawals := by
  rw [cmd_start]
  cases get_user s from_id with
  | none => exact create_user_frame ..
  | some _ => simp

/-! ## The claims -/

/-- A one-earning store: user 2 has been credited 5.00. -/
def sWit : LedgerState := ⟨[], [], [⟨2, 1, 5, "t0", "bonus"⟩], []⟩

/-- The `UPDATE users SET username = ?, first_name = ?` of `cmd_start`
commutes with row lookup: finding by `telegram_id` after the update is
updating the found row, since the update preserves `telegram_id`. -/
theorem find?_update_display (l : List User) (x id : ℤ) (un fn : Option String) :
    (l.map (fun u => if u.telegram_id = id then
        { u with username := un, first_name := fn } else u)).find?
      (fun u => decide (u.telegram_id = x)) =
    (l.find? (fun u => decide (u.telegram_id = x))).map
      (fun u => if u.telegram_id = id then
        { u with username := un, first_name := fn } else u) := by
  induction l with
  | nil => rfl
  | cons a t ih =>
    have h1 : ((if a.telegram_id = id then
        { a with username := un, first_name := fn } else a) : User).telegram_id =
        a.telegram_id := by
      split <;> rfl
    by_cases ha : a.telegram_id = x
    · have hd : decide (a.telegram_id = x) = true := by simp [ha]
      simp only [List.map_cons, List.find?_cons, h1, hd]
      rfl
    · have hd : decide (a.telegram_id = x) = false := by simp [ha]
      simp only [List.map_cons, List.find?_cons, h1, hd]
      exact ih

/-- C5: registration is idempotent with first-write-wins attribution:
for a user already in the store, `cmd_start` updates only the display
fields — `referred_by`, the identifier and `joined_at` stay exactly as
the first call set them (the updated row is `u0` with only `username`
and `first_name` replaced), whatever different referral argument is
supplied; the other tables and all other users are untouched. -/
theorem c5_registration_idempotent (s : LedgerState) (id : ℤ) (u0 : User)
    (h : get_user s id = some u0) (un fn : Option String) (arg : Option ℤ)
    (now : String) :
    get_user (cmd_start s id un fn arg now) id =
      some { u0 with username := un, first_name := fn } ∧
    (cmd_start s id un fn arg now).deposits = s.deposits ∧
    (cmd_start s id un fn arg now).ref_earnings = s.ref_earnings ∧
    (cmd_start s id un fn arg now).withdrawals = s.withdrawals ∧
    ∀ v : ℤ, v ≠ id → get_user (cmd_start s id un fn arg now) v = get_user s v := by
  have h' : s.users.find? (fun u => decide (u.telegram_id = id)) = some u0 := h
  have hp := List.find?_some h'
  have hid : u0.telegram_id = id := by simpa using hp
  rw [cmd_start, h]
  refine ⟨?_, rfl, rfl, rfl, ?_⟩
  · show (s.users.map _).find? _ = _
    rw [find?_update_display]
    rw [show s.users.find? (fun u => decide (u.telegram_id = id)) = some u0 from h]
    simp [hid]
  · intro v hv
    show (s.users.map _).find? _ = get_user s v
    rw [find?_update_display]
    rw [get_user]
    cases hf : s.users.find? (fun u => decide (u.telegram_id = v)) with
    | none => rfl
    | some w =>
      have hpw := List.find?_some hf
      have hw : w.telegram_id = v := by simpa using hpw
      simp [hw, hv]

theorem c5_witness :
    get_user (cmd_start (cmd_start emptyState 2 none none (some 7) "t0")
        2 (some "alice") (some "A") (some 9) "t2") 2 =
      some ⟨2, some "alice", some "A", some 7, "t0"⟩ := by
  have h := c5_registration_idempotent
    (cmd_start emptyState 2 none none (some 7) "t0") 2
    ⟨2, none, none, some 7, "t0"⟩ (by decide)
    (some "alice") (some "A") (some 9) "t2"
  exact h.1

/-- C6: a user created through `/start` never has itself as referrer:
the stored `referred_by` is the parsed argument with a self-reference
normalised to `none`, so it differs from `some id`; in particular a
referral argument equal to the user's own identifier yields no
referrer rather than an error. -/
theorem c6_no_self_referral (s : LedgerState) (id : ℤ) (h : get_user s id = none)
    (un fn : Option String) (arg : Option ℤ) (now : String) :
    get_user (cmd_start s id un fn arg now) id =
      some ⟨id, un, fn, if arg = some id then none else arg, now⟩ ∧
    (if arg = some id then (none : Option ℤ) else arg) ≠ some id ∧
    (arg = some id → (if arg = some id then (none : Option ℤ) else arg) = none) := by
  refine ⟨?_, ?_, fun ha => if_pos ha⟩
  · rw [cmd_start, h, create_user_if_not_exists, h]
    show (s.users ++ _).find? _ = _
    rw [List.find?_append, show s.users.find? (fun u => decide (u.telegram_id = id)) = none from h]
    simp
  · split
    · simp
    · next hne => exact hne

theorem c6_witness :
    get_user (cmd_start emptyState 42 none none (some 42) "t0") 42 =
      some ⟨42, none, none, none, "t0"⟩ := by
  have h := c6_no_self_referral emptyState 42 rfl none none (some 42) "t0"
  simpa using h.1

theorem create_user_of_found {s : LedgerState} {t : ℤ} {u : User}
    (h : get_user s t = some u) (un fn : Option String) (rb : Option ℤ)
    (now : String) : create_user_if_not_exists s t un fn rb now = s := by
  rw [create_user_if_not_exists, h]

theorem get_user_deposits_ext (s : LedgerState) (d : List Deposit) (t : ℤ) :
    get_user { s with deposits := d } t = get_user s t := rfl

/-- `admin_add_deposit` on a stored user with a truthy referrer (non-NULL
and non-zero) different from the target: one deposit row and one earning
row of `quantize(amount*pct/100, 0.01, ROUND_DOWN)` are appended. -/
theorem admin_add_deposit_spec (s : LedgerState) (target_id : ℤ) (u : User)
    (hu : get_user s target_id = some u) (r : ℤ) (hr : u.referred_by = some r)
    (h0 : r ≠ 0) (hne : r ≠ target_id) (amount : ℚ) (currency : String)
    (pct : ℚ) (now : String) :
    admin_add_deposit s target_id amount currency pct now =
      { s with
        deposits := s.deposits ++ [⟨target_id, trunc2 amount, currency, now⟩],
        ref_earnings := s.ref_earnings ++
          [⟨r, target_id, trunc2 (amount * pct / 100), now, mkNote pct target_id⟩] } := by
  simp only [admin_add_deposit, create_user_of_found hu, get_user_deposits_ext, hu, hr]
  rw [if_pos ⟨h0, hne⟩]

/-- Whatever the referrer situation, `admin_add_deposit` appends exactly
the one deposit row to the `deposits` table — with no check that the
amount is positive. -/
theorem admin_add_deposit_deposits (s : LedgerState) (target_id : ℤ)
    (amount : ℚ) (currency : String) (pct : ℚ) (now : String) :
    (admin_add_deposit s target_id amount currency pct now).deposits =
      s.deposits ++ [⟨target_id, trunc2 amount, currency, now⟩] := by
  rw [admin_add_deposit]
  have h1 := (create_user_frame s target_id none none none now).1
  cases hget : get_user { create_user_if_not_exists s target_id none none none now with
      deposits := (create_user_if_not_exists s target_id none none none now).deposits ++
        [⟨target_id, trunc2 amount, currency, now⟩] } target_id with
  | none => simpa using h1
  | some user =>
    cases hrb : user.referred_by with
    | none => simpa [hrb] using h1
    | some referrer =>
      by_cases hcond : referrer ≠ 0 ∧ referrer ≠ target_id <;>
        simp [hrb, hcond, h1]

/-- C2 (amended): when the stored `referred_by` is a *nonzero* referrer
different from the target, the recorded bonus is exactly
`amount * pct / 100` truncated toward zero to two decimals; with
percent 1.0 a 100.00 deposit yields exactly 1.00, and with percent 0.33
a 10.00 deposit yields exactly 0.03 (truncation, not rounding).  (The
bot's Python truthiness test `if user.get("referred_by")` additionally
skips the bonus when the stored referrer id is 0, which the original
claim's "is set" does not exclude.) -/
theorem c2_bonus_truncated (s : LedgerState) (target_id : ℤ) (u : User)
    (hu : get_user s target_id = some u) (r : ℤ) (hr : u.referred_by = some r)
    (h0 : r ≠ 0) (hne : r ≠ target_id) (amount : ℚ) (currency : String)
    (pct : ℚ) (now : String) :
    (admin_add_deposit s target_id amount currency pct now).ref_earnings =
      s.ref_earnings ++
        [⟨r, target_id, trunc2 (amount * pct / 100), now, mkNote pct target_id⟩] ∧
    trunc2 (100 * 1 / 100) = 1 ∧
    trunc2 (10 * (33/100) / 100) = 3/100 := by
  refine ⟨?_, ?_, ?_⟩
  · rw [admin_add_deposit_spec s target_id u hu r hr h0 hne amount currency pct now]
  · rw [trunc2, if_pos (by norm_num)]
    norm_num
  · rw [trunc2, if_pos (by norm_num)]
    norm_num

/-- User 5 registered with referral argument 7. -/
def s2w : LedgerState := cmd_start emptyState 5 none none (some 7) "t0"

theorem c2_witness :
    ((admin_add_deposit s2w 5 100 "USDT" 1 "t1").ref_earnings).map
      (fun e => (e.referrer_telegram_id, e.from_user_telegram_id, e.amount)) =
      [(7, 5, 1)] := by
  have h := c2_bonus_truncated s2w 5 ⟨5, none, none, some 7, "t0"⟩ (by decide)
    7 rfl (by decide) (by decide) 100 "USDT" 1 "t1"
  have hs : s2w.ref_earnings = [] := rfl
  rw [h.1, h.2.1, hs]
  simp

/-- User 5 registered with referral argument 0: `referred_by` is stored
as 0 (set, and different from 5), yet Python truthiness makes
`admin_add_deposit` skip the bonus entirely. -/
def s2cx : LedgerState := cmd_start emptyState 5 none none (some 0) "t0"

theorem c2_zero_referrer_no_bonus :
    (get_user s2cx 5).map (fun u => u.referred_by) = some (some 0) ∧
    (0 : ℤ) ≠ 5 ∧
    (admin_add_deposit s2cx 5 100 "USDT" 1 "t1").ref_earnings = [] := by
  refine ⟨by decide, by decide, ?_⟩
  have hu : get_user s2cx 5 = some ⟨5, none, none, some 0, "t0"⟩ := by decide
  simp only [admin_add_deposit, create_user_of_found hu, get_user_deposits_ext, hu]
  norm_num
  rfl

/-- C3 (amended): a bonus that truncates to 0.00 is *still* recorded:
the deposit row is appended and a zero-amount `ReferralEarning` row is
written whenever the stored referrer is nonzero and differs from the
target — the bot has no positive-bonus guard. -/
theorem c3_zero_bonus_recorded (s : LedgerState) (target_id : ℤ) (u : User)
    (hu : get_user s target_id = some u) (r : ℤ) (hr : u.referred_by = some r)
    (h0 : r ≠ 0) (hne : r ≠ target_id) (amount : ℚ) (currency : String)
    (pct : ℚ) (now : String) (hz : trunc2 (amount * pct / 100) = 0) :
    (admin_add_deposit s target_id amount currency pct now).deposits =
      s.deposits ++ [⟨target_id, trunc2 amount, currency, now⟩] ∧
    (admin_add_deposit s target_id amount currency pct now).ref_earnings =
      s.ref_earnings ++ [⟨r, target_id, 0, now, mkNote pct target_id⟩] := by
  rw [admin_add_deposit_spec s target_id u hu r hr h0 hne amount currency pct now]
  rw [hz]
  exact ⟨rfl, rfl⟩

/-- User 1 registered with referral argument 2. -/
def s3w : LedgerState := cmd_start emptyState 1 none none (some 2) "t0"

theorem c3_witness :
    ((admin_add_deposit s3w 1 (1/2) "USDT" 1 "t1").ref_earnings).map
      (fun e => e.amount) = [0] ∧
    (admin_add_deposit s3w 1 (1/2) "USDT" 1 "t1").deposits.length = 1 := by
  have hz : trunc2 ((1/2 : ℚ) * 1 / 100) = 0 := by
    rw [trunc2, if_pos (by norm_num)]
    norm_num
  have h := c3_zero_bonus_recorded s3w 1 ⟨1, none, none, some 2, "t0"⟩ (by decide)
    2 rfl (by decide) (by decide) (1/2) "USDT" 1 "t1" hz
  have hs : s3w.ref_earnings = [] := rfl
  have hd : s3w.deposits = [] := rfl
  constructor
  · rw [h.2, hs]
    simp
  · rw [h.1, hd]
    simp

/-- C3 counterexample: deposit 0.50 at percent 1.0 for referred user 1:
the raw bonus 0.005 truncates to 0.00, and a `ReferralEarning` row *is*
produced (amount 0.00) — the claim's "no row at all" is false. -/
theorem c3_counterexample :
    ((admin_add_deposit s3w 1 (1/2) "USDT" 1 "t1").ref_earnings).length = 1 ∧
    ((admin_add_deposit s3w 1 (1/2) "USDT" 1 "t1").ref_earnings).map
      (fun e => e.amount) = [0] := by
  have hz : trunc2 ((1/2 : ℚ) * 1 / 100) = 0 := by
    rw [trunc2, if_pos (by norm_num)]
    norm_num
  have h := admin_add_deposit_spec s3w 1 ⟨1, none, none, some 2, "t0"⟩ (by decide)
    2 rfl (by decide) (by decide) (1/2) "USDT" 1 "t1"
  have hs : s3w.ref_earnings = [] := rfl
  rw [h]
  constructor
  · simp [hs]
  · rw [hz] at h ⊢
    simp [hs]

/-- C8 (amended): `admin_add_deposit` performs no positivity check:
for any parsed `amount ≤ 0` the deposit row (with the truncated,
still non-positive amount) is written all the same. -/
theorem c8_nonpositive_deposit_recorded (s : LedgerState) (target_id : ℤ)
    (amount : ℚ) (h : amount ≤ 0) (currency : String) (pct : ℚ) (now : String) :
    (admin_add_deposit s target_id amount currency pct now).deposits =
      s.deposits ++ [⟨target_id, trunc2 amount, currency, now⟩] ∧
    trunc2 amount ≤ 0 := by
  exact ⟨admin_add_deposit_deposits .., trunc2_nonpos h⟩

theorem c8_witness :
    ((admin_add_deposit emptyState 7 (-1) "USDT" 1 "t0").deposits).map
      (fun d => (d.user_telegram_id, d.amount)) = [(7, -1)] := by
  have h := c8_nonpositive_deposit_recorded emptyState 7 (-1) (by norm_num)
    "USDT" 1 "t0"
  have ht : trunc2 (-1) = -1 := trunc2_cents ⟨-100, by norm_num⟩
  rw [h.1, ht]
  simp [emptyState]

/-- C8 counterexample: recording a deposit of −1.00 does not fail — a
deposit row is written (the claim says none may be). -/
theorem c8_counterexample :
    ((admin_add_deposit emptyState 7 (-1) "USDT" 1 "t0").deposits).length = 1 := by
  rw [admin_add_deposit_deposits]
  rfl

/-- Lexicographic order on character sequences; on fixed-format
ISO-8601 UTC timestamps this is chronological order. -/
def charListLt : List Char → List Char → Bool
  | [], [] => false
  | [], _ :: _ => true
  | _ :: _, [] => false
  | a :: as, b :: bs => if a < b then true else if b < a then false else charListLt as bs

/-- Modelled from the spec: `earnedInInterval(userId, startInclusive,
endExclusive)` — the sum of the user's earning amounts whose timestamp
falls in the half-open interval `[startInclusive, endExclusive)` in the
ledger's canonical time zone (UTC, the zone of every stored
`created_at`).  The bot has no such function; `sum_ref_earnings_today`
(a prefix match against the *process-local* `date.today()`) is the
code's stand-in for the UTC day interval. -/
def earnedInInterval (s : LedgerState) (tg_id : ℤ)
    (startInclusive endExclusive : String) : ℚ :=
  ((s.ref_earnings.filter (fun e =>
      decide (e.referrer_telegram_id = tg_id) &&
      !charListLt e.created_at.data startInclusive.data &&
      charListLt e.created_at.data endExclusive.data)).map
    (fun e => e.amount)).sum

/-- One earning of 5.00 for referrer 2, recorded at 23:00 UTC on
2026-10-12. -/
def s9 : LedgerState := ⟨[], [], [⟨2, 1, 5, "2026-10-12T23:00:00", "bonus"⟩], []⟩

/-- C9: the UTC day interval `[2026-10-12T00:00:00, 2026-10-13T00:00:00)`
contains the earning, and the code's prefix sum agrees — but only when
the string passed for "today" is the UTC date: the code derives it from
the *process-local* clock (`date.today()`), and in a process east of
UTC at 23:00 UTC the local date is already 2026-10-13, for which the
code returns 0 instead of 5. -/
theorem c9_today_is_local_not_utc :
    earnedInInterval s9 2 "2026-10-12T00:00:00" "2026-10-13T00:00:00" = 5 ∧
    sum_ref_earnings_today s9 2 "2026-10-12" = 5 ∧
    sum_ref_earnings_today s9 2 "2026-10-13" = 0 := by
  have h1 : strStartsWith "2026-10-12T23:00:00" "2026-10-12" = true := by decide
  have h2 : strStartsWith "2026-10-12T23:00:00" "2026-10-13" = false := by decide
  have h3 : charListLt "2026-10-12T23:00:00".data "2026-10-12T00:00:00".data = false := by
    decide
  have h4 : charListLt "2026-10-12T23:00:00".data "2026-10-13T00:00:00".data = true := by
    decide
  refine ⟨?_, ?_, ?_⟩ <;>
    simp [earnedInInterval, sum_ref_earnings_today, s9, h1, h2, h3, h4]

/-! ## Binary64 evaluation lemmas -/

theorem clog2_eq (n k : ℕ) (h1 : 1 ≤ k) (h2 : 2 ^ (k - 1) < n) (h3 : n ≤ 2 ^ k) :
    Nat.clog 2 n = k := by
  apply le_antisymm
  · exact (Nat.le_pow_iff_clog_le (by norm_num)).1 h3
  · have h4 := (Nat.pow_lt_iff_lt_clog (by norm_num) (x := n) (y := k - 1)).1 h2
    omega

theorem ilog_tenth : Int.log 2 ((1 : ℚ)/10) = -4 := by
  rw [Int.log_of_right_le_one 2 (by norm_num)]
  rw [show ((1 : ℚ)/10)⁻¹ = ((10 : ℕ) : ℚ) by norm_num]
  rw [Nat.ceil_natCast]
  rw [clog2_eq 10 4 (by norm_num) (by norm_num) (by norm_num)]
  norm_num

theorem ilog_c : Int.log 2 ((3602879701896397 : ℚ)/36028797018963968) = -4 := by
  rw [Int.log_of_right_le_one 2 (by norm_num)]
  have hc : ⌈((3602879701896397 : ℚ)/36028797018963968)⁻¹⌉₊ = 10 := by
    rw [Nat.ceil_eq_iff (by norm_num)]
    norm_num
  rw [hc, clog2_eq 10 4 (by norm_num) (by norm_num) (by norm_num)]
  norm_num

theorem ilog_2c : Int.log 2 ((3602879701896397 : ℚ)/18014398509481984) = -3 := by
  rw [Int.log_of_right_le_one 2 (by norm_num)]
  have hc : ⌈((3602879701896397 : ℚ)/18014398509481984)⁻¹⌉₊ = 5 := by
    rw [Nat.ceil_eq_iff (by norm_num)]
    norm_num
  rw [hc, clog2_eq 5 3 (by norm_num) (by norm_num) (by norm_num)]
  norm_num

theorem ilog_3c : Int.log 2 ((10808639105689191 : ℚ)/36028797018963968) = -2 := by
  rw [Int.log_of_right_le_one 2 (by norm_num)]
  have hc : ⌈((10808639105689191 : ℚ)/36028797018963968)⁻¹⌉₊ = 4 := by
    rw [Nat.ceil_eq_iff (by norm_num)]
    norm_num
  rw [hc, clog2_eq 4 2 (by norm_num) (by norm_num) (by norm_num)]
  norm_num

/-- `CAST('0.10' AS REAL)`: the nearest binary64 to 1/10 is
`7205759403792794 × 2^(-56)`, strictly above 1/10. -/
theorem rnd53_tenth : rnd53 (1/10) = 3602879701896397/36028797018963968 := by
  rw [rnd53, if_neg (by norm_num), if_pos (by norm_num), rnd53pos, ilog_tenth]
  rw [show ((52 : ℤ) - (-4)) = 56 by norm_num, show ((-4 : ℤ) - 52) = -56 by norm_num]
  rw [show (1/10 : ℚ) * 2 ^ (56 : ℤ) = 36028797018963968/5 by norm_num]
  rw [rne]
  rw [show (⌊(36028797018963968/5 : ℚ)⌋ : ℤ) = 7205759403792793 by norm_num]
  rw [if_neg (by norm_num), if_pos (by norm_num)]
  norm_num

theorem rnd53_fix_c :
    rnd53 (3602879701896397/36028797018963968) = 3602879701896397/36028797018963968 := by
  rw [rnd53, if_neg (by norm_num), if_pos (by norm_num), rnd53pos, ilog_c]
  rw [show ((52 : ℤ) - (-4)) = 56 by norm_num, show ((-4 : ℤ) - 52) = -56 by norm_num]
  rw [show (3602879701896397/36028797018963968 : ℚ) * 2 ^ (56 : ℤ) =
      ((7205759403792794 : ℤ) : ℚ) by norm_num]
  rw [rne, Int.floor_intCast]
  rw [if_pos (by norm_num)]
  norm_num

/-- Binary64 addition of the 0.1-double with itself is exact. -/
theorem rnd53_two_c :
    rnd53 (3602879701896397/36028797018963968 + 3602879701896397/36028797018963968) =
      3602879701896397/18014398509481984 := by
  rw [show (3602879701896397/36028797018963968 + 3602879701896397/36028797018963968 : ℚ) =
      3602879701896397/18014398509481984 by norm_num]
  rw [rnd53, if_neg (by norm_num), if_pos (by norm_num), rnd53pos, ilog_2c]
  rw [show ((52 : ℤ) - (-3)) = 55 by norm_num, show ((-3 : ℤ) - 52) = -55 by norm_num]
  rw [show (3602879701896397/18014398509481984 : ℚ) * 2 ^ (55 : ℤ) =
      ((7205759403792794 : ℤ) : ℚ) by norm_num]
  rw [rne, Int.floor_intCast]
  rw [if_pos (by norm_num)]
  norm_num

/-- Binary64 addition of the 0.2-double and the 0.1-double rounds: the
exact sum sits halfway between two doubles, and the tie goes to the even
significand `5404319552844596`. -/
theorem rnd53_three_c :
    rnd53 (3602879701896397/18014398509481984 + 3602879701896397/36028797018963968) =
      1351079888211149/4503599627370496 := by
  rw [show (3602879701896397/18014398509481984 + 3602879701896397/36028797018963968 : ℚ) =
      10808639105689191/36028797018963968 by norm_num]
  rw [rnd53, if_neg (by norm_num), if_pos (by norm_num), rnd53pos, ilog_3c]
  rw [show ((52 : ℤ) - (-2)) = 54 by norm_num, show ((-2 : ℤ) - 52) = -54 by norm_num]
  rw [show (10808639105689191/36028797018963968 : ℚ) * 2 ^ (54 : ℤ) =
      10808639105689191/2 by norm_num]
  rw [rne]
  rw [show (⌊(10808639105689191/2 : ℚ)⌋ : ℤ) = 5404319552844595 by norm_num]
  rw [if_neg (by norm_num), if_neg (by norm_num), if_neg (by norm_num)]
  norm_num

theorem fsum_three_tenths :
    fsum [1/10, 1/10, 1/10] = 1351079888211149/4503599627370496 := by
  rw [fsum]
  simp only [List.foldl_cons, List.foldl_nil]
  rw [rnd53_tenth, zero_add, rnd53_fix_c, rnd53_two_c, rnd53_three_c]

/-- Three earnings of 0.10 for referrer 2 (e.g. three 10.00 deposits at
percent 1.0). -/
def s7 : LedgerState :=
  ⟨[], [], [⟨2, 1, 1/10, "t1", "bonus"⟩, ⟨2, 1, 1/10, "t2", "bonus"⟩,
    ⟨2, 1, 1/10, "t3", "bonus"⟩], []⟩

/-- C7: the aggregate sums are *not* exact decimal arithmetic: summing
three stored earnings of 0.10 through the code's
`SUM(CAST(amount AS REAL))` pipeline produces the binary64 value
`5404319552844596 × 2^(-54)` (≈ 0.30000000000000004), not the exact
decimal 0.30 — a binary floating-point value arises at an intermediate
stage and changes the result. -/
theorem c7_real_sum_not_exact :
    sum_ref_earnings s7 2 = 3/10 ∧
    sum_ref_earnings_real s7 2 = 1351079888211149/4503599627370496 ∧
    sum_ref_earnings_real s7 2 ≠ sum_ref_earnings s7 2 := by
  have hf : (s7.ref_earnings.filter (fun e => decide (e.referrer_telegram_id = 2))).map
      (fun e => e.amount) = [1/10, 1/10, 1/10] := by
    simp [s7]
  refine ⟨?_, ?_, ?_⟩
  · rw [sum_ref_earnings, hf]
    norm_num [List.sum_cons, List.sum_nil]
  · rw [sum_ref_earnings_real, hf, fsum_three_tenths]
  · rw [sum_ref_earnings_real, sum_ref_earnings, hf, fsum_three_tenths]
    norm_num [List.sum_cons, List.sum_nil]

/-! ## Further binary64 evaluations, for the balance claims -/

theorem ilog_five : Int.log 2 (5 : ℚ) = 2 := by
  rw [show (5 : ℚ) = ((5 : ℕ) : ℚ) by norm_num, Int.log_natCast]
  have h5 : Nat.log 2 5 = 2 := Nat.log_eq_of_pow_le_of_lt_pow (by norm_num) (by norm_num)
  rw [h5]
  norm_num

/-- 5.00 is exactly representable in binary64. -/
theorem rnd53_five : rnd53 (5 : ℚ) = 5 := by
  rw [rnd53, if_neg (by norm_num), if_pos (by norm_num), rnd53pos, ilog_five]
  rw [show ((52 : ℤ) - 2) = 50 by norm_num, show ((2 : ℤ) - 52) = -50 by norm_num]
  rw [show (5 : ℚ) * 2 ^ (50 : ℤ) = ((5629499534213120 : ℤ) : ℚ) by norm_num]
  rw [rne, Int.floor_intCast, if_pos (by norm_num)]
  norm_num

/-- −1.00 is exactly representable in binary64. -/
theorem rnd53_neg_one : rnd53 (-1 : ℚ) = -1 := by
  rw [rnd53, if_neg (by norm_num), if_neg (by norm_num), neg_neg]
  rw [rnd53pos, Int.log_one_right]
  rw [show ((52 : ℤ) - 0) = 52 by norm_num, show ((0 : ℤ) - 52) = -52 by norm_num]
  rw [show (1 : ℚ) * 2 ^ (52 : ℤ) = ((4503599627370496 : ℤ) : ℚ) by norm_num]
  rw [rne, Int.floor_intCast, if_pos (by norm_num)]
  norm_num

theorem ilog_threeTenths : Int.log 2 ((3 : ℚ)/10) = -2 := by
  rw [Int.log_of_right_le_one 2 (by norm_num)]
  have hc : ⌈((3 : ℚ)/10)⁻¹⌉₊ = 4 := by
    rw [Nat.ceil_eq_iff (by norm_num)]
    norm_num
  rw [hc, clog2_eq 4 2 (by norm_num) (by norm_num) (by norm_num)]
  norm_num

/-- `CAST('-0.30' AS REAL)`: the nearest binary64 to −3/10 is
`−5404319552844595 × 2^(-54)`. -/
theorem rnd53_neg_threeTenths :
    rnd53 (-(3/10) : ℚ) = -(5404319552844595/18014398509481984) := by
  rw [rnd53, if_neg (by norm_num), if_neg (by norm_num), neg_neg]
  rw [rnd53pos, ilog_threeTenths]
  rw [show ((52 : ℤ) - (-2)) = 54 by norm_num, show ((-2 : ℤ) - 52) = -54 by norm_num]
  rw [show ((3 : ℚ)/10) * 2 ^ (54 : ℤ) = 27021597764222976/5 by norm_num]
  rw [rne]
  rw [show (⌊(27021597764222976/5 : ℚ)⌋ : ℤ) = 5404319552844595 by norm_num]
  rw [if_pos (by norm_num)]
  norm_num

theorem ilog_ulp : Int.log 2 ((1 : ℚ)/18014398509481984) = -54 := by
  rw [Int.log_of_right_le_one 2 (by norm_num)]
  rw [show ((1 : ℚ)/18014398509481984)⁻¹ = ((18014398509481984 : ℕ) : ℚ) by norm_num]
  rw [Nat.ceil_natCast]
  rw [clog2_eq 18014398509481984 54 (by norm_num) (by norm_num) (by norm_num)]
  norm_num

/-- The residue `2^(-54)` is itself a binary64 value. -/
theorem rnd53_ulp :
    rnd53 ((1 : ℚ)/18014398509481984) = 1/18014398509481984 := by
  rw [rnd53, if_neg (by norm_num), if_pos (by norm_num), rnd53pos, ilog_ulp]
  rw [show ((52 : ℤ) - (-54)) = 106 by norm_num, show ((-54 : ℤ) - 52) = -106 by norm_num]
  rw [show ((1 : ℚ)/18014398509481984) * 2 ^ (106 : ℤ) =
      ((4503599627370496 : ℤ) : ℚ) by norm_num]
  rw [rne, Int.floor_intCast, if_pos (by norm_num)]
  norm_num

theorem fsum_five : fsum [(5 : ℚ)] = 5 := by
  rw [fsum]
  simp only [List.foldl_cons, List.foldl_nil]
  rw [rnd53_five, zero_add, rnd53_five]

theorem fsum_neg_one : fsum [(-1 : ℚ)] = -1 := by
  rw [fsum]
  simp only [List.foldl_cons, List.foldl_nil]
  rw [rnd53_neg_one, zero_add, rnd53_neg_one]

theorem fsum_four (a b c d : ℚ) :
    fsum [a, b, c, d] =
      rnd53 (rnd53 (rnd53 (rnd53 (0 + rnd53 a) + rnd53 b) + rnd53 c) + rnd53 d) := rfl

/-- The binary64 running sum over `0.10, 0.10, 0.10, −0.30`, collapsed
to its final addition. -/
theorem rnd53_chain_residue :
    rnd53 (rnd53 (rnd53 (rnd53 (0 + rnd53 (1/10)) + rnd53 (1/10)) + rnd53 (1/10))
        + rnd53 (-(3/10))) =
      rnd53 (1351079888211149/4503599627370496 +
        -(5404319552844595/18014398509481984)) := by
  rw [rnd53_tenth, zero_add, rnd53_fix_c, rnd53_two_c, rnd53_three_c, rnd53_neg_threeTenths]

theorem rnd53_residue_value :
    rnd53 (1351079888211149/4503599627370496 +
        -(5404319552844595/18014398509481984) : ℚ) = 1/18014398509481984 := by
  rw [show (1351079888211149/4503599627370496 +
      -(5404319552844595/18014398509481984) : ℚ) = 1/18014398509481984 by norm_num]
  exact rnd53_ulp

/-- Summing `0.10, 0.10, 0.10, −0.30` in binary64 leaves the residue
`2^(-54)` ≈ 5.55 × 10⁻¹⁷ instead of the exact 0. -/
theorem fsum_residue :
    fsum [1/10, 1/10, 1/10, -(3/10)] = 1/18014398509481984 := by
  rw [fsum_four, rnd53_chain_residue]
  exact rnd53_residue_value

theorem pw_sWit : pending_withdrawable sWit 2 = 5 := by
  rw [pending_withdrawable, sum_ref_earnings_real]
  have hf : (sWit.ref_earnings.filter (fun e => decide (e.referrer_telegram_id = 2))).map
      (fun e => e.amount) = [5] := by simp [sWit]
  rw [hf, fsum_five]
  simp [sWit, fsum]

theorem pw_s7 :
    pending_withdrawable s7 2 = 1351079888211149/4503599627370496 := by
  rw [pending_withdrawable, sum_ref_earnings_real]
  have hf : (s7.ref_earnings.filter (fun e => decide (e.referrer_telegram_id = 2))).map
      (fun e => e.amount) = [1/10, 1/10, 1/10] := by simp [s7]
  rw [hf, fsum_three_tenths]
  simp [s7, fsum]

/-- Earnings `0.10, 0.10, 0.10, −0.30` for referrer 2 (three 10.00
deposits and one −30.00 deposit at percent 1.0): exact balance 0. -/
def s4x : LedgerState :=
  ⟨[], [], [⟨2, 1, 1/10, "t1", "bonus"⟩, ⟨2, 1, 1/10, "t2", "bonus"⟩,
    ⟨2, 1, 1/10, "t3", "bonus"⟩, ⟨2, 1, -(3/10), "t4", "bonus"⟩], []⟩

theorem pw_s4x : pending_withdrawable s4x 2 = 1/18014398509481984 := by
  rw [pending_withdrawable, sum_ref_earnings_real]
  have hf : (s4x.ref_earnings.filter (fun e => decide (e.referrer_telegram_id = 2))).map
      (fun e => e.amount) = [1/10, 1/10, 1/10, -(3/10)] := by simp [s4x]
  rw [hf, fsum_residue]
  simp [s4x, fsum]

/-- Appending a withdrawal row whose status is not `'paid'` leaves
`pending_withdrawable` unchanged: the `status = 'paid'` filter of the
aggregate drops it before any arithmetic happens. -/
theorem pending_withdrawable_append_nonpaid (s : LedgerState) (u : ℤ)
    (w : Withdrawal) (hw : w.status ≠ WStatus.paid) :
    pending_withdrawable { s with withdrawals := s.withdrawals ++ [w] } u =
      pending_withdrawable s u := by
  simp [pending_withdrawable, sum_ref_earnings_real, List.filter_append, hw]

/-! ## The balance claims -/

/-- C1 (amended): the withdrawable balance is the binary64 aggregate
(`SUM(CAST(amount AS REAL))`) of the user's earnings minus the binary64
aggregate of that user's `'paid'` withdrawals — equal to the exact
decimal sums only up to binary64 rounding; withdrawals whose status is
not `'paid'` (`'pending'`, `'rejected'`) are not subtracted at all, and
a withdrawal request leaves every user's withdrawable balance
unchanged, since the row it writes is `'pending'`. -/
theorem c1_withdrawable_code_formula (s : LedgerState) (u v : ℤ) (now : String) :
    (pending_withdrawable s u =
      sum_ref_earnings_real s u -
        fsum ((s.withdrawals.filter (fun x =>
            decide (x.user_telegram_id = u) && decide (x.status = WStatus.paid))).map
          (fun x => x.amount))) ∧
    (∀ w : Withdrawal, w.status ≠ WStatus.paid →
      pending_withdrawable { s with withdrawals := s.withdrawals ++ [w] } u =
        pending_withdrawable s u) ∧
    (pending_withdrawable (withdraw_request s v now) u = pending_withdrawable s u) := by
  refine ⟨rfl, fun w hw => pending_withdrawable_append_nonpaid s u w hw, ?_⟩
  rw [withdraw_request]
  split
  · rfl
  · exact pending_withdrawable_append_nonpaid s u
      ⟨v, trunc2 (pending_withdrawable s v), WStatus.pending, now⟩
      (show WStatus.pending ≠ WStatus.paid from by decide)

theorem c1_witness :
    pending_withdrawable
        { sWit with withdrawals := sWit.withdrawals ++ [⟨9, 7, WStatus.rejected, "t9"⟩] } 2 =
      pending_withdrawable sWit 2 :=
  (c1_withdrawable_code_formula sWit 2 9 "t9").2.1
    ⟨9, 7, WStatus.rejected, "t9"⟩ (by decide)

/-- C1 counterexample: with three stored 0.10 earnings and no
withdrawals, the exact sum of earnings minus paid withdrawals is 0.30,
but the balance the code returns is the binary64 value
`5404319552844596 × 2^(-54)` ≈ 0.30000000000000004 — not that sum. -/
theorem c1_counterexample :
    sum_ref_earnings s7 2 -
        ((s7.withdrawals.filter (fun x =>
            decide (x.user_telegram_id = 2) && decide (x.status = WStatus.paid))).map
          (fun x => x.amount)).sum = 3/10 ∧
    pending_withdrawable s7 2 ≠ 3/10 := by
  constructor
  · have hf : (s7.ref_earnings.filter (fun e => decide (e.referrer_telegram_id = 2))).map
        (fun e => e.amount) = [1/10, 1/10, 1/10] := by simp [s7]
    rw [sum_ref_earnings, hf]
    simp [s7]
    norm_num
  · rw [pw_s7]
    norm_num

/-- C4 (amended): a withdrawal request fails (writes nothing) exactly
when the balance the code computes — the binary64 aggregate — is ≤ 0,
and otherwise appends exactly one `'pending'` withdrawal whose amount
is `decimal_str` of that balance: the balance truncated toward zero to
two decimals, hence non-negative but not necessarily equal to the
balance read (and 0.00 when only a sub-cent binary64 residue remains);
the recorded rows are a snapshot that later deposits/earnings do not
change. -/
theorem c4_withdraw_request_gate (s : LedgerState) (u : ℤ) (now : String) :
    (pending_withdrawable s u ≤ 0 → withdraw_request s u now = s) ∧
    (0 < pending_withdrawable s u →
      withdraw_request s u now =
        { s with withdrawals := s.withdrawals ++
            [⟨u, trunc2 (pending_withdrawable s u), WStatus.pending, now⟩] } ∧
      0 ≤ trunc2 (pending_withdrawable s u)) ∧
    (∀ target_id amount currency pct now2,
      (admin_add_deposit (withdraw_request s u now)
          target_id amount currency pct now2).withdrawals =
        (withdraw_request s u now).withdrawals) := by
  refine ⟨?_, ?_, ?_⟩
  · intro hle
    rw [withdraw_request]
    simp [hle]
  · intro hgt
    constructor
    · rw [withdraw_request, if_neg (not_le.2 hgt)]
    · exact trunc2_nonneg (le_of_lt hgt)
  · intro target_id amount currency pct now2
    exact admin_add_deposit_withdrawals_frame ..

theorem c4_witness :
    withdraw_request sWit 2 "t1" =
      { sWit with withdrawals := [⟨2, 5, WStatus.pending, "t1"⟩] } := by
  have h := (c4_withdraw_request_gate sWit 2 "t1").2.1
    (by rw [pw_sWit]; norm_num)
  rw [h.1, pw_sWit, trunc2_cents ⟨500, by norm_num⟩]
  rfl

/-- C4 counterexample: with earnings `0.10 × 3` and `−0.30` the exact
withdrawable balance is 0, so the claim demands a NothingToWithdraw
failure with no record — but the binary64 balance is the positive
residue `2^(-54)`, and the code writes a `'pending'` withdrawal of
amount 0.00.  Moreover, on three 0.10 earnings the written amount
(0.30) differs from the balance read (0.30000000000000004), against
the claim's "amount exactly equal to the withdrawable balance read". -/
theorem c4_counterexample :
    sum_ref_earnings s4x 2 = 0 ∧
    pending_withdrawable s4x 2 = 1/18014398509481984 ∧
    (withdraw_request s4x 2 "t5").withdrawals = [⟨2, 0, WStatus.pending, "t5"⟩] ∧
    trunc2 (pending_withdrawable s7 2) = 3/10 ∧
    trunc2 (pending_withdrawable s7 2) ≠ pending_withdrawable s7 2 := by
  have ht7 : trunc2 (pending_withdrawable s7 2) = 3/10 := by
    rw [pw_s7, trunc2, if_pos (by norm_num)]
    norm_num
  refine ⟨?_, pw_s4x, ?_, ht7, ?_⟩
  · have hf : (s4x.ref_earnings.filter (fun e => decide (e.referrer_telegram_id = 2))).map
        (fun e => e.amount) = [1/10, 1/10, 1/10, -(3/10)] := by simp [s4x]
    rw [sum_ref_earnings, hf]
    norm_num
  · have h0 : trunc2 ((1 : ℚ)/18014398509481984) = 0 := by
      rw [trunc2, if_pos (by norm_num)]
      norm_num
    rw [withdraw_request]
    rw [show pending_withdrawable s4x 2 = 1/18014398509481984 from pw_s4x]
    rw [if_neg (by norm_num), h0]
    rfl
  · rw [ht7, pw_s7]
    norm_num

/-- C10 (amended): every operation of the bot leaves the existing
withdrawal rows exactly in place (no status or amount of a stored
withdrawal is ever updated — `markPaid`/`markRejected` do not exist in
the program, so every withdrawal stays `'pending'` forever) and appends
only `'pending'` rows of non-negative amount (the truncation of the
positive-at-read balance, which a sub-cent binary64 residue can make
0.00).  (The original claim's last clause fails: `pending_withdrawable`
*can* be decreased, by an admin deposit with a negative amount for a
referred user.) -/
theorem c10_withdrawals_append_only (s : LedgerState) (op : Op) :
    ∃ tail, (applyOp s op).withdrawals = s.withdrawals ++ tail ∧
      ∀ w ∈ tail, w.status = WStatus.pending ∧ 0 ≤ w.amount := by
  cases op with
  | start from_id un fn arg now =>
    exact ⟨[], by simp [applyOp, (cmd_start_frame s from_id un fn arg now).2.2], by simp⟩
  | addDeposit target_id amount currency pct now =>
    exact ⟨[], by simp [applyOp, admin_add_deposit_withdrawals_frame], by simp⟩
  | withdraw from_id now =>
    by_cases h : pending_withdrawable s from_id ≤ 0
    · exact ⟨[], by simp [applyOp, withdraw_request, h], by simp⟩
    · refine ⟨[⟨from_id, trunc2 (pending_withdrawable s from_id), WStatus.pending, now⟩],
        ?_, ?_⟩
      · show (withdraw_request s from_id now).withdrawals = _
        rw [withdraw_request, if_neg h]
      · intro w hw
        rw [List.mem_singleton] at hw
        subst hw
        exact ⟨rfl, trunc2_nonneg (le_of_lt (lt_of_not_le h))⟩

theorem c10_witness :
    ∃ tail, (applyOp sWit (Op.withdraw 2 "t1")).withdrawals =
        sWit.withdrawals ++ tail ∧
      ∀ w ∈ tail, w.status = WStatus.pending ∧ 0 ≤ w.amount :=
  c10_withdrawals_append_only sWit (Op.withdraw 2 "t1")

/-- C10 counterexample: an admin deposit of −100.00 to the referred
user 1 records a −1.00 earning for referrer 2, strictly decreasing 2's
withdrawable balance (0.00 to −1.00 through the binary64 aggregate as
well) — so "withdrawable(u) is never decreased by any program
operation" is false. -/
theorem c10_counterexample :
    pending_withdrawable (applyOp s3w (Op.addDeposit 1 (-100) "USDT" 1 "t1")) 2 <
      pending_withdrawable s3w 2 := by
  have h := admin_add_deposit_spec s3w 1 ⟨1, none, none, some 2, "t0"⟩ (by decide)
    2 rfl (by decide) (by decide) (-100) "USDT" 1 "t1"
  have ht : trunc2 ((-100 : ℚ) * 1 / 100) = -1 := by
    rw [trunc2_cents ⟨-100, by push_cast; ring⟩]
    norm_num
  have hre : s3w.ref_earnings = [] := rfl
  have hwd : s3w.withdrawals = [] := rfl
  have hbefore : pending_withdrawable s3w 2 = 0 := by
    simp [pending_withdrawable, sum_ref_earnings_real, hre, hwd, fsum]
  have hafter :
      pending_withdrawable (admin_add_deposit s3w 1 (-100) "USDT" 1 "t1") 2 = -1 := by
    rw [h, ht]
    simp only [pending_withdrawable, sum_ref_earnings_real]
    rw [hre, hwd]
    simp [fsum, rnd53_neg_one]
  show pending_withdrawable (admin_add_deposit s3w 1 (-100) "USDT" 1 "t1") 2 < _
  rw [hbefore, hafter]
  norm_num

end RefBot
